import Mathlib

/-!
Verification of the Xiaomi vacuum-map parsing library.

Shallow embedding of the Python sources:
  - `aes_decryptor.py`   (key derivation and payload decryption pipeline)
  - `image_parser.py`    (pixel classifier / room bounding-box extraction)
  - `map_data_parser.py` (payload assembler: yaw normalization, pixel
                          normalization, room-id reconciliation, input typing)

Modelling conventions:
  - Python byte strings are `List Nat` (each element a byte value).
  - Python `str` values that are manipulated character-wise are `List Char`.
  - Python floats are modelled as real numbers; float literals such as
    `0.001` are read as the exact rationals they denote.
  - A raised exception is modelled as `Option.none` (or a dedicated error
    constructor when the exception class matters for a claim).
-/

namespace XiaomiMap

/-! ## Yaw normalization (`XiaomiMapDataParser._json_yaw_to_degrees`) -/

/-- Python float `%`: `x % y = x - y * floor (x / y)` (result has the sign of
the divisor). This is the semantics of `%` on Python floats. -/
noncomputable def pymod (x y : ℝ) : ℝ := x - y * ⌊x / y⌋

/-- `XiaomiMapDataParser._json_yaw_to_degrees`.  The source first runs
`float(yaw)`; an input on which that conversion raises `TypeError` or
`ValueError` is modelled as `none`, a convertible input as `some v`.
Branches transcribe lines 136-145 of `map_data_parser.py`:
`abs(value) <= 2*pi + 0.001` gives radians-to-degrees, then
`abs(value) > 180` gives `(value / 100) % 180`, else `value % 180`. -/
noncomputable def jsonYawToDegrees (yaw : Option ℝ) : ℝ :=
  match yaw with
  | none => 0
  | some v =>
    if |v| ≤ 2 * Real.pi + 1 / 1000 then v * 180 / Real.pi
    else if |v| > 180 then pymod (v / 100) 180
    else pymod v 180

lemma pymod_eq_fract (x y : ℝ) (hy : y ≠ 0) :
    pymod x y = y * Int.fract (x / y) := by
  unfold pymod Int.fract
  field_simp

lemma pymod_nonneg (x y : ℝ) (hy : 0 < y) : 0 ≤ pymod x y := by
  rw [pymod_eq_fract x y (ne_of_gt hy)]
  exact mul_nonneg (le_of_lt hy) (Int.fract_nonneg _)

lemma pymod_lt (x y : ℝ) (hy : 0 < y) : pymod x y < y := by
  rw [pymod_eq_fract x y (ne_of_gt hy)]
  calc y * Int.fract (x / y) < y * 1 := by
        exact (mul_lt_mul_left hy).mpr (Int.fract_lt_one _)
    _ = y := mul_one y

lemma pymod_self_half (v : ℝ) (hv0 : 0 ≤ v) (hv : v < 180) : pymod v 180 = v := by
  unfold pymod
  have h : ⌊v / 180⌋ = 0 := by
    rw [Int.floor_eq_zero_iff]
    constructor
    · positivity
    · have : v / 180 < 1 := by linarith [div_lt_one (show (0:ℝ) < 180 by norm_num) |>.mpr hv]
      simpa using this
  rw [h]
  ring

lemma jsonYaw_radians (v : ℝ) (h1 : |v| ≤ 2 * Real.pi + 1 / 1000) :
    jsonYawToDegrees (some v) = v * 180 / Real.pi := by
  simp only [jsonYawToDegrees]
  rw [if_pos h1]

lemma jsonYaw_centi (v : ℝ) (h1 : ¬ |v| ≤ 2 * Real.pi + 1 / 1000) (h2 : |v| > 180) :
    jsonYawToDegrees (some v) = pymod (v / 100) 180 := by
  simp only [jsonYawToDegrees]
  rw [if_neg h1, if_pos h2]

lemma jsonYaw_deg (v : ℝ) (h1 : ¬ |v| ≤ 2 * Real.pi + 1 / 1000) (h2 : ¬ |v| > 180) :
    jsonYawToDegrees (some v) = pymod v 180 := by
  simp only [jsonYawToDegrees]
  rw [if_neg h1, if_neg h2]

lemma yaw_9000_eq : jsonYawToDegrees (some 9000) = 90 := by
  have hpi : Real.pi < 3.15 := Real.pi_lt_d2
  have h1 : ¬ |(9000:ℝ)| ≤ 2 * Real.pi + 1 / 1000 := by
    rw [abs_of_nonneg (by norm_num : (0:ℝ) ≤ 9000)]
    push_neg
    nlinarith
  have h2 : |(9000:ℝ)| > 180 := by
    rw [abs_of_nonneg (by norm_num : (0:ℝ) ≤ 9000)]
    norm_num
  rw [jsonYaw_centi 9000 h1 h2]
  have : (9000:ℝ) / 100 = 90 := by norm_num
  rw [this, pymod_self_half 90 (by norm_num) (by norm_num)]

lemma yaw_45_eq : jsonYawToDegrees (some 45) = 45 := by
  have hpi : Real.pi < 3.15 := Real.pi_lt_d2
  have h1 : ¬ |(45:ℝ)| ≤ 2 * Real.pi + 1 / 1000 := by
    rw [abs_of_nonneg (by norm_num : (0:ℝ) ≤ 45)]
    push_neg
    nlinarith
  have h2 : ¬ |(45:ℝ)| > 180 := by
    rw [abs_of_nonneg (by norm_num : (0:ℝ) ≤ 45)]
    norm_num
  rw [jsonYaw_deg 45 h1 h2, pymod_self_half 45 (by norm_num) (by norm_num)]

/-- C5: the yaw-normalization rule.  Non-numeric input yields `0.0`; a numeric
value `v` with `|v| ≤ 2*pi + 0.001` is treated as radians and converted to
degrees; otherwise, when `|v| > 180` it is treated as centi-degrees
(`(v/100) mod 180`), and otherwise as degrees (`v mod 180`). -/
theorem yaw_rule :
    jsonYawToDegrees none = 0 ∧
    ∀ v : ℝ,
      (|v| ≤ 2 * Real.pi + 1 / 1000 →
        jsonYawToDegrees (some v) = v * 180 / Real.pi) ∧
      (¬ |v| ≤ 2 * Real.pi + 1 / 1000 → |v| > 180 →
        jsonYawToDegrees (some v) = pymod (v / 100) 180) ∧
      (¬ |v| ≤ 2 * Real.pi + 1 / 1000 → ¬ |v| > 180 →
        jsonYawToDegrees (some v) = pymod v 180) := by
  exact ⟨rfl, fun v => ⟨jsonYaw_radians v, jsonYaw_centi v, jsonYaw_deg v⟩⟩

/-- Witness for `yaw_rule` at the concrete input `45`. -/
theorem yaw_rule_witness : jsonYawToDegrees (some 45) = pymod 45 180 := by
  have hpi : Real.pi < 3.15 := Real.pi_lt_d2
  have h1 : ¬ |(45:ℝ)| ≤ 2 * Real.pi + 1 / 1000 := by
    rw [abs_of_nonneg (by norm_num : (0:ℝ) ≤ 45)]
    push_neg
    nlinarith
  have h2 : ¬ |(45:ℝ)| > 180 := by
    rw [abs_of_nonneg (by norm_num : (0:ℝ) ≤ 45)]
    norm_num
  exact ((yaw_rule.2 45).2.2) h1 h2

/-- C7 counterexample: the claim says the input `9000` maps to `0.0`, but the
code computes `(9000 / 100) % 180 = 90.0`. -/
theorem yaw_9000_is_90_not_0 : jsonYawToDegrees (some 9000) = 90 ∧ (90:ℝ) ≠ 0 :=
  ⟨yaw_9000_eq, by norm_num⟩

/-- C7 (amended): `1.57` maps to approximately `90.0` degrees (within `0.1`),
`9000` maps to `90.0` degrees (`(9000/100) mod 180 = 90`), and `45` maps to
`45.0` degrees. -/
theorem yaw_scenarios :
    |jsonYawToDegrees (some 1.57) - 90| ≤ 1 / 10 ∧
    jsonYawToDegrees (some 9000) = 90 ∧
    jsonYawToDegrees (some 45) = 45 := by
  refine ⟨?_, yaw_9000_eq, yaw_45_eq⟩
  have hgt : (3.141592:ℝ) < Real.pi := Real.pi_gt_d6
  have hlt : Real.pi < 3.141593 := Real.pi_lt_d6
  have hpos : (0:ℝ) < Real.pi := Real.pi_pos
  have h1 : |(1.57:ℝ)| ≤ 2 * Real.pi + 1 / 1000 := by
    rw [abs_of_nonneg (by norm_num : (0:ℝ) ≤ 1.57)]
    nlinarith
  rw [jsonYaw_radians 1.57 h1, abs_le]
  have key1 : (89.9:ℝ) ≤ 1.57 * 180 / Real.pi := by
    rw [le_div_iff₀ hpos]
    nlinarith
  have key2 : (1.57:ℝ) * 180 / Real.pi ≤ 90.1 := by
    rw [div_le_iff₀ hpos]
    nlinarith
  constructor <;> linarith

/-- C8 counterexample: the claim says every normalized angle lies in
`[0, 180)`, but the radians branch applied to the numeric input `6` gives
`6 * 180 / pi`, which is at least `180` (about `343.77`). -/
theorem yaw_6_escapes_range : 180 ≤ jsonYawToDegrees (some 6) := by
  have hgt : (3.141592:ℝ) < Real.pi := Real.pi_gt_d6
  have hlt : Real.pi < 3.15 := Real.pi_lt_d2
  have hpos : (0:ℝ) < Real.pi := Real.pi_pos
  have h1 : |(6:ℝ)| ≤ 2 * Real.pi + 1 / 1000 := by
    rw [abs_of_nonneg (by norm_num : (0:ℝ) ≤ 6)]
    nlinarith
  rw [jsonYaw_radians 6 h1, le_div_iff₀ hpos]
  nlinarith

/-- C8 (amended): the normalized angle lies in `[0, 180)` for every input that
is non-numeric or whose numeric value has `|v| > 2*pi + 0.001` (i.e. every
input handled by one of the two `mod 180` branches); the radians branch can
fall outside that interval. -/
theorem yaw_range_amended (y : Option ℝ)
    (hy : y = none ∨ ∃ v : ℝ, y = some v ∧ ¬ |v| ≤ 2 * Real.pi + 1 / 1000) :
    0 ≤ jsonYawToDegrees y ∧ jsonYawToDegrees y < 180 := by
  rcases hy with h | ⟨v, rfl, h1⟩
  · subst h
    constructor <;> simp [jsonYawToDegrees]
  · by_cases h2 : |v| > 180
    · rw [jsonYaw_centi v h1 h2]
      exact ⟨pymod_nonneg _ _ (by norm_num), pymod_lt _ _ (by norm_num)⟩
    · rw [jsonYaw_deg v h1 h2]
      exact ⟨pymod_nonneg _ _ (by norm_num), pymod_lt _ _ (by norm_num)⟩

/-- Witness for `yaw_range_amended` at the concrete input `9000`. -/
theorem yaw_range_amended_witness :
    0 ≤ jsonYawToDegrees (some 9000) ∧ jsonYawToDegrees (some 9000) < 180 := by
  apply yaw_range_amended (some 9000)
  refine Or.inr ⟨9000, rfl, ?_⟩
  have hpi : Real.pi < 3.15 := Real.pi_lt_d2
  rw [abs_of_nonneg (by norm_num : (0:ℝ) ≤ 9000)]
  push_neg
  nlinarith

/-! ## Pixel classifier (`XiaomiImageParser.parse`, `image_parser.py`)

The PIL image itself is opaque to the claims; the model tracks whether an
image object is produced (`hasImage`), the per-room bounding boxes, the
cleaned-room set and the unknown-pixel-value set.  Python exceptions
(negative image dimensions passed to `Image.new`, `IndexError` on the byte
buffer) are modelled as `none`. -/

/-- A room bounding box `(min_x, min_y, max_x, max_y)`, in untrimmed pixel
coordinates, as accumulated in the `rooms` dictionary of
`XiaomiImageParser.parse`. -/
structure Box where
  minX : Int
  minY : Int
  maxX : Int
  maxY : Int
deriving DecidableEq, Repr

/-- One bounding-box update of `XiaomiImageParser.parse` (lines 131-142):
first pixel of a room initializes a degenerate box, later pixels expand by
componentwise min/max. -/
def expandBox : Option Box → Int → Int → Box
  | none, x, y => ⟨x, y, x, y⟩
  | some b, x, y => ⟨min b.minX x, min b.minY y, max b.maxX x, max b.maxY y⟩

/-- The pixel `q` lies inside the box. -/
def inBox (q : Int × Int) (b : Box) : Prop :=
  b.minX ≤ q.1 ∧ q.1 ≤ b.maxX ∧ b.minY ≤ q.2 ∧ q.2 ≤ b.maxY

/-- `boxLe inner outer`: the box `inner` is contained in the box `outer`. -/
def boxLe (inner outer : Box) : Prop :=
  outer.minX ≤ inner.minX ∧ inner.maxX ≤ outer.maxX ∧
  outer.minY ≤ inner.minY ∧ inner.maxY ≤ outer.maxY

/-- Keys of `XiaomiImageParser.color_map`: `MAP_OUTSIDE = 0`,
`MAP_WALL = 128`, `MAP_SCAN = 1`, `MAP_NEW_DISCOVERED_AREA = 2`,
`MAP_INSIDE = 127`. -/
def colorMapKeys : List Nat := [0, 128, 1, 2, 127]

/-- Folding of a selected/cleaned pixel value into the normal room range
(lines 126-129): values `>= MAP_SELECTED_ROOM_MIN = 60` become
`value - 60 + MAP_ROOM_MIN` with `MAP_ROOM_MIN = 10`. -/
def foldRoom (v : Nat) : Nat := if 60 ≤ v then v - 60 + 10 else v

/-- The effective room number assigned to a pixel value by the classifier
loop, or `none` when the value is a standard map element or unclassifiable.
The `color_map` membership test runs first, then the room range test
`MAP_ROOM_MIN <= v <= MAP_SELECTED_ROOM_MAX` (i.e. `10 <= v <= 109`). -/
def classifyRoom (v : Nat) : Option Nat :=
  if v ∈ colorMapKeys then none
  else if 10 ≤ v ∧ v ≤ 109 then some (foldRoom v) else none

/-- Mutable state of the classifier loop: the `rooms` dictionary, the
`cleaned_areas` set and the `unknown_pixels` set. -/
structure ScanState where
  rooms : Nat → Option Box
  cleaned : Nat → Bool
  unknown : Nat → Bool

def initState : ScanState := ⟨fun _ => none, fun _ => false, fun _ => false⟩

/-- One iteration of the classifier loop body (lines 113-151), for the pixel
at trimmed-image position `p = (img_x, img_y)` with raw value `v`.  `tl` and
`tb` are `trim_left` and `trim_bottom`; room coordinates add them back. -/
def stepPixel (tl tb : Int) (p : Nat × Nat) (v : Nat) (s : ScanState) : ScanState :=
  if v ∈ colorMapKeys then s
  else if 10 ≤ v ∧ v ≤ 109 then
    let rn := foldRoom v
    { rooms := fun r =>
        if r = rn then some (expandBox (s.rooms rn) ((p.1 : Int) + tl) ((p.2 : Int) + tb))
        else s.rooms r
      cleaned := if 60 ≤ v then (fun c => if c = rn then true else s.cleaned c) else s.cleaned
      unknown := s.unknown }
  else { s with unknown := fun u => if u = v then true else s.unknown u }

/-- Python sequence indexing: nonnegative indices must be below the length,
negative indices count from the end; anything else raises `IndexError`
(modelled as `none`). -/
def pyIndex (l : List Nat) (i : Int) : Option Nat :=
  if 0 ≤ i then l.get? i.toNat
  else if -(l.length : Int) ≤ i then l.get? (i + l.length).toNat
  else none

/-- Source-buffer index read by the loop:
`map_data[(img_y + trim_bottom) * width + img_x + trim_left]`. -/
def srcIndex (w : Nat) (tl tb : Int) (p : Nat × Nat) : Int :=
  ((p.2 : Int) + tb) * (w : Int) + (p.1 : Int) + tl

/-- The loop visits `(img_x, img_y)` with `img_y` outermost, exactly the
nesting of lines 103-107. -/
def positions (tw th : Nat) : List (Nat × Nat) :=
  (List.range th).flatMap fun y => (List.range tw).map fun x => (x, y)

/-- The classifier loop over a list of positions; `none` models an
`IndexError` escaping the loop. -/
def scanGo (raw : List Nat) (w : Nat) (tl tb : Int) :
    List (Nat × Nat) → ScanState → Option ScanState
  | [], s => some s
  | p :: rest, s =>
    match pyIndex raw (srcIndex w tl tb p) with
    | none => none
    | some v => scanGo raw w tl tb rest (stepPixel tl tb p v s)

/-- Trim percentages from `ImageConfig.trim` (floats in the source, modelled
as rationals). -/
structure TrimCfg where
  left : ℚ
  right : ℚ
  top : ℚ
  bottom : ℚ

/-- `int(trim_percentage * dimension / 100)` (lines 79-82).  Python `int()`
truncates toward zero; for the exact rational `p = p.num / p.den` (positive
denominator) the value `p * d / 100` is the fraction
`(p.num * d) / (p.den * 100)`, and truncation toward zero is `Int.tdiv`. -/
def trimPx (p : ℚ) (d : Nat) : Int := (p.num * (d : Int)).tdiv ((p.den : Int) * 100)

def trimmedWidth (w : Nat) (cfg : TrimCfg) : Int :=
  (w : Int) - trimPx cfg.left w - trimPx cfg.right w

def trimmedHeight (h : Nat) (cfg : TrimCfg) : Int :=
  (h : Int) - trimPx cfg.top h - trimPx cfg.bottom h

/-- All positions the classifier loop visits for a given configuration. -/
def scanPositions (w h : Nat) (cfg : TrimCfg) : List (Nat × Nat) :=
  positions (trimmedWidth w cfg).toNat (trimmedHeight h cfg).toNat

/-- Observable result of `XiaomiImageParser.parse`: whether a PIL image was
produced, and the three returned collections. -/
structure ParseOut where
  hasImage : Bool
  rooms : Nat → Option Box
  cleaned : Nat → Bool
  unknown : Nat → Bool

def emptyParseOut : ParseOut :=
  ⟨false, fun _ => none, fun _ => false, fun _ => false⟩

/-- `XiaomiImageParser.parse`.  Trimmed extents are computed from the
percentage trim settings; a zero trimmed width or height short-circuits to
`(None, {}, set())` (lines 89-90); a negative trimmed extent makes
`Image.new` raise (modelled `none`); otherwise the classifier loop runs over
every trimmed pixel.  The scale resampling step only changes the opaque
image, never the returned dictionaries, so it does not appear here. -/
def imageParserParse (raw : List Nat) (w h : Nat) (cfg : TrimCfg) : Option ParseOut :=
  if trimmedWidth w cfg = 0 ∨ trimmedHeight h cfg = 0 then some emptyParseOut
  else if trimmedWidth w cfg < 0 ∨ trimmedHeight h cfg < 0 then none
  else
    match scanGo raw w (trimPx cfg.left w) (trimPx cfg.bottom h)
        (scanPositions w h cfg) initState with
    | none => none
    | some s => some ⟨true, s.rooms, s.cleaned, s.unknown⟩

/-- Untrimmed coordinates of the pixels of a scan-position list whose byte
value the classifier assigns to room `R`. -/
def hitsOf (raw : List Nat) (w : Nat) (tl tb : Int) (R : Nat)
    (L : List (Nat × Nat)) : List (Int × Int) :=
  L.filterMap fun p =>
    match pyIndex raw (srcIndex w tl tb p) with
    | some v => if classifyRoom v = some R then some ((p.1 : Int) + tl, (p.2 : Int) + tb) else none
    | none => none

/-- The pixels classified as room `R` over the whole scan of a
configuration. -/
def roomPixels (raw : List Nat) (w h : Nat) (cfg : TrimCfg) (R : Nat) : List (Int × Int) :=
  hitsOf raw w (trimPx cfg.left w) (trimPx cfg.bottom h) R (scanPositions w h cfg)

/-- Folding one hit into an optional box. -/
def expandO (b : Option Box) (q : Int × Int) : Option Box := some (expandBox b q.1 q.2)

/-- `XiaomiImageParser.get_current_vacuum_room` (lines 166-193): a
single-pixel lookup applying the same folding rule.  Outer `none` models an
`IndexError`; inner `none` is the function returning Python `None`. -/
def getCurrentVacuumRoom (raw : List Nat) (px py : Int) (imageWidth : Nat) :
    Option (Option Nat) :=
  match pyIndex raw (py * (imageWidth : Int) + px) with
  | none => none
  | some v =>
    if 10 ≤ v ∧ v ≤ 59 then some (some v)
    else if 60 ≤ v ∧ v ≤ 109 then some (some (v - 60 + 10))
    else some none

/-! ### Lemmas about the classifier scan -/

lemma boxLe_refl (b : Box) : boxLe b b :=
  ⟨le_refl _, le_refl _, le_refl _, le_refl _⟩

lemma boxLe_trans {a b c : Box} (h1 : boxLe a b) (h2 : boxLe b c) : boxLe a c :=
  ⟨le_trans h2.1 h1.1, le_trans h1.2.1 h2.2.1,
   le_trans h2.2.2.1 h1.2.2.1, le_trans h1.2.2.2 h2.2.2.2⟩

lemma boxLe_expandBox (b : Box) (x y : Int) : boxLe b (expandBox (some b) x y) := by
  unfold expandBox boxLe
  exact ⟨min_le_left _ _, le_max_left _ _, min_le_left _ _, le_max_left _ _⟩

lemma inBox_expandBox_self (ob : Option Box) (x y : Int) :
    inBox (x, y) (expandBox ob x y) := by
  cases ob with
  | none => exact ⟨le_refl _, le_refl _, le_refl _, le_refl _⟩
  | some b => exact ⟨min_le_right _ _, le_max_right _ _, min_le_right _ _, le_max_right _ _⟩

lemma inBox_mono {q : Int × Int} {b b2 : Box} (h : inBox q b) (hle : boxLe b b2) :
    inBox q b2 :=
  ⟨le_trans hle.1 h.1, le_trans h.2.1 hle.2.1,
   le_trans hle.2.2.1 h.2.2.1, le_trans h.2.2.2 hle.2.2.2⟩

lemma foldl_expandO_some (qs : List (Int × Int)) (b : Box) :
    ∃ b2, qs.foldl expandO (some b) = some b2 ∧ boxLe b b2 := by
  induction qs generalizing b with
  | nil => exact ⟨b, rfl, boxLe_refl b⟩
  | cons q qs ih =>
    obtain ⟨b2, hfold, hle⟩ := ih (expandBox (some b) q.1 q.2)
    exact ⟨b2, hfold, boxLe_trans (boxLe_expandBox b q.1 q.2) hle⟩

lemma foldl_expandO_none_iff (qs : List (Int × Int)) :
    qs.foldl expandO (none : Option Box) = none ↔ qs = [] := by
  cases qs with
  | nil => simp
  | cons q qs =>
    simp only [List.foldl_cons]
    obtain ⟨b2, hfold, -⟩ := foldl_expandO_some qs (expandBox none q.1 q.2)
    simp only [expandO] at hfold ⊢
    rw [hfold]
    simp

lemma foldl_expandO_contains (qs : List (Int × Int)) :
    ∀ (ob : Option Box) (b2 : Box), qs.foldl expandO ob = some b2 →
    ∀ q ∈ qs, inBox q b2 := by
  induction qs with
  | nil => intro ob b2 _ q hq; cases hq
  | cons q0 qs ih =>
    intro ob b2 hfold q hq
    simp only [List.foldl_cons] at hfold
    rcases List.mem_cons.mp hq with rfl | hq
    · obtain ⟨b2x, hfoldx, hle⟩ := foldl_expandO_some qs (expandBox ob q.1 q.2)
      have : b2x = b2 := by
        have := hfoldx ▸ (show qs.foldl expandO (expandO ob q) = some b2 from hfold)
        exact Option.some_injective _ this
      subst this
      exact inBox_mono (inBox_expandBox_self ob q.1 q.2) hle
    · exact ih (expandO ob q0) b2 hfold q hq

lemma foldl_expandO_init_le (qs : List (Int × Int)) (b b2 : Box)
    (h : qs.foldl expandO (some b) = some b2) : boxLe b b2 := by
  obtain ⟨b2x, hfold, hle⟩ := foldl_expandO_some qs b
  rw [hfold] at h
  exact Option.some_injective _ h ▸ hle

/-- Each of the four extremes of the folded box is attained either by the
initial box or by a position of the list. -/
lemma foldl_expandO_attained (qs : List (Int × Int)) :
    ∀ (ob : Option Box) (b2 : Box), qs.foldl expandO ob = some b2 →
      ((∃ b, ob = some b ∧ b.minX = b2.minX) ∨ ∃ q ∈ qs, q.1 = b2.minX) ∧
      ((∃ b, ob = some b ∧ b.minY = b2.minY) ∨ ∃ q ∈ qs, q.2 = b2.minY) ∧
      ((∃ b, ob = some b ∧ b.maxX = b2.maxX) ∨ ∃ q ∈ qs, q.1 = b2.maxX) ∧
      ((∃ b, ob = some b ∧ b.maxY = b2.maxY) ∨ ∃ q ∈ qs, q.2 = b2.maxY) := by
  induction qs with
  | nil =>
    intro ob b2 hfold
    simp only [List.foldl_nil] at hfold
    subst hfold
    refine ⟨Or.inl ⟨b2, rfl, rfl⟩, Or.inl ⟨b2, rfl, rfl⟩,
      Or.inl ⟨b2, rfl, rfl⟩, Or.inl ⟨b2, rfl, rfl⟩⟩
  | cons q0 qs ih =>
    intro ob b2 hfold
    simp only [List.foldl_cons] at hfold
    obtain ⟨h1, h2, h3, h4⟩ := ih (expandO ob q0) b2 hfold
    constructor
    · rcases h1 with ⟨bx, hbx, he⟩ | ⟨q, hq, he⟩
      · have hbx2 : bx = expandBox ob q0.1 q0.2 := Option.some_injective _ hbx.symm
        subst hbx2
        cases ob with
        | none => exact Or.inr ⟨q0, List.mem_cons_self _ _, he⟩
        | some b =>
          rcases min_choice b.minX q0.1 with hm | hm
          · exact Or.inl ⟨b, rfl, by rw [← he]; exact hm.symm⟩
          · exact Or.inr ⟨q0, List.mem_cons_self _ _, by rw [← he]; exact hm.symm⟩
      · exact Or.inr ⟨q, List.mem_cons_of_mem _ hq, he⟩
    constructor
    · rcases h2 with ⟨bx, hbx, he⟩ | ⟨q, hq, he⟩
      · have hbx2 : bx = expandBox ob q0.1 q0.2 := Option.some_injective _ hbx.symm
        subst hbx2
        cases ob with
        | none => exact Or.inr ⟨q0, List.mem_cons_self _ _, he⟩
        | some b =>
          rcases min_choice b.minY q0.2 with hm | hm
          · exact Or.inl ⟨b, rfl, by rw [← he]; exact hm.symm⟩
          · exact Or.inr ⟨q0, List.mem_cons_self _ _, by rw [← he]; exact hm.symm⟩
      · exact Or.inr ⟨q, List.mem_cons_of_mem _ hq, he⟩
    constructor
    · rcases h3 with ⟨bx, hbx, he⟩ | ⟨q, hq, he⟩
      · have hbx2 : bx = expandBox ob q0.1 q0.2 := Option.some_injective _ hbx.symm
        subst hbx2
        cases ob with
        | none => exact Or.inr ⟨q0, List.mem_cons_self _ _, he⟩
        | some b =>
          rcases max_choice b.maxX q0.1 with hm | hm
          · exact Or.inl ⟨b, rfl, by rw [← he]; exact hm.symm⟩
          · exact Or.inr ⟨q0, List.mem_cons_self _ _, by rw [← he]; exact hm.symm⟩
      · exact Or.inr ⟨q, List.mem_cons_of_mem _ hq, he⟩
    · rcases h4 with ⟨bx, hbx, he⟩ | ⟨q, hq, he⟩
      · have hbx2 : bx = expandBox ob q0.1 q0.2 := Option.some_injective _ hbx.symm
        subst hbx2
        cases ob with
        | none => exact Or.inr ⟨q0, List.mem_cons_self _ _, he⟩
        | some b =>
          rcases max_choice b.maxY q0.2 with hm | hm
          · exact Or.inl ⟨b, rfl, by rw [← he]; exact hm.symm⟩
          · exact Or.inr ⟨q0, List.mem_cons_self _ _, by rw [← he]; exact hm.symm⟩
      · exact Or.inr ⟨q, List.mem_cons_of_mem _ hq, he⟩

lemma classifyRoom_room_range {v R : Nat} (h : classifyRoom v = some R) :
    ¬ v ∈ colorMapKeys ∧ 10 ≤ v ∧ v ≤ 109 ∧ foldRoom v = R := by
  unfold classifyRoom at h
  by_cases hm : v ∈ colorMapKeys
  · rw [if_pos hm] at h; cases h
  · rw [if_neg hm] at h
    by_cases hr : 10 ≤ v ∧ v ≤ 109
    · rw [if_pos hr] at h
      exact ⟨hm, hr.1, hr.2, Option.some_injective _ h⟩
    · rw [if_neg hr] at h; cases h

lemma classifyRoom_of_range {v : Nat} (h1 : 10 ≤ v) (h2 : v ≤ 109) :
    classifyRoom v = some (foldRoom v) := by
  have hm : ¬ v ∈ colorMapKeys := by
    simp only [colorMapKeys, List.mem_cons, List.not_mem_nil, or_false]
    omega
  unfold classifyRoom
  rw [if_neg hm, if_pos ⟨h1, h2⟩]

lemma foldRoom_range {v : Nat} (h1 : 10 ≤ v) (h2 : v ≤ 109) :
    10 ≤ foldRoom v ∧ foldRoom v ≤ 59 := by
  unfold foldRoom
  split <;> omega

lemma foldRoom_selected {v : Nat} (h1 : 60 ≤ v) : foldRoom v = v - 50 := by
  unfold foldRoom
  rw [if_pos h1]
  omega

lemma stepPixel_rooms_hit {v R : Nat} (h : classifyRoom v = some R)
    (tl tb : Int) (p : Nat × Nat) (s : ScanState) :
    (stepPixel tl tb p v s).rooms R =
      expandO (s.rooms R) ((p.1 : Int) + tl, (p.2 : Int) + tb) := by
  obtain ⟨hm, h1, h2, hfold⟩ := classifyRoom_room_range h
  unfold stepPixel
  rw [if_neg hm, if_pos ⟨h1, h2⟩]
  simp only [expandO]
  rw [if_pos hfold.symm, hfold]

lemma stepPixel_rooms_miss {v R : Nat} (h : ¬ classifyRoom v = some R)
    (tl tb : Int) (p : Nat × Nat) (s : ScanState) :
    (stepPixel tl tb p v s).rooms R = s.rooms R := by
  unfold stepPixel
  by_cases hm : v ∈ colorMapKeys
  · rw [if_pos hm]
  · rw [if_neg hm]
    by_cases hr : 10 ≤ v ∧ v ≤ 109
    · rw [if_pos hr]
      have hne : R ≠ foldRoom v := by
        intro he
        exact h (he ▸ classifyRoom_of_range hr.1 hr.2)
      simp only []
      rw [if_neg hne]
    · rw [if_neg hr]

lemma scanGo_rooms (raw : List Nat) (w : Nat) (tl tb : Int) :
    ∀ (L : List (Nat × Nat)) (s t : ScanState),
      scanGo raw w tl tb L s = some t →
      ∀ R, t.rooms R = (hitsOf raw w tl tb R L).foldl expandO (s.rooms R) := by
  intro L
  induction L with
  | nil =>
    intro s t h R
    simp only [scanGo] at h
    cases h
    simp [hitsOf]
  | cons p rest ih =>
    intro s t h R
    simp only [scanGo] at h
    cases hpi : pyIndex raw (srcIndex w tl tb p) with
    | none => rw [hpi] at h; cases h
    | some v =>
      rw [hpi] at h
      simp only [hitsOf, List.filterMap_cons, hpi]
      by_cases hc : classifyRoom v = some R
      · rw [if_pos hc]
        simp only [List.foldl_cons]
        have := ih (stepPixel tl tb p v s) t h R
        rw [this, stepPixel_rooms_hit hc tl tb p s]
        rfl
      · rw [if_neg hc]
        have := ih (stepPixel tl tb p v s) t h R
        rw [this, stepPixel_rooms_miss hc tl tb p s]
        rfl

lemma stepPixel_cleaned_mono {c : Nat} {s : ScanState}
    (h : s.cleaned c = true) (tl tb : Int) (p : Nat × Nat) (v : Nat) :
    (stepPixel tl tb p v s).cleaned c = true := by
  unfold stepPixel
  by_cases hm : v ∈ colorMapKeys
  · rw [if_pos hm]; exact h
  · rw [if_neg hm]
    by_cases hr : 10 ≤ v ∧ v ≤ 109
    · rw [if_pos hr]
      simp only []
      by_cases hs : 60 ≤ v
      · rw [if_pos hs]
        by_cases he : c = foldRoom v
        · rw [if_pos he]
        · rw [if_neg he]; exact h
      · rw [if_neg hs]; exact h
    · rw [if_neg hr]; exact h

lemma stepPixel_cleaned_hit {v : Nat} (h1 : 60 ≤ v) (h2 : v ≤ 109)
    (tl tb : Int) (p : Nat × Nat) (s : ScanState) :
    (stepPixel tl tb p v s).cleaned (foldRoom v) = true := by
  have hm : ¬ v ∈ colorMapKeys := by
    simp only [colorMapKeys, List.mem_cons, List.not_mem_nil, or_false]
    omega
  unfold stepPixel
  rw [if_neg hm, if_pos ⟨by omega, h2⟩]
  simp only []
  rw [if_pos h1, if_pos rfl]

lemma scanGo_cleaned_mono (raw : List Nat) (w : Nat) (tl tb : Int) :
    ∀ (L : List (Nat × Nat)) (s t : ScanState) (c : Nat),
      scanGo raw w tl tb L s = some t → s.cleaned c = true → t.cleaned c = true := by
  intro L
  induction L with
  | nil =>
    intro s t c h hc
    simp only [scanGo] at h
    cases h
    exact hc
  | cons p rest ih =>
    intro s t c h hc
    simp only [scanGo] at h
    cases hpi : pyIndex raw (srcIndex w tl tb p) with
    | none => rw [hpi] at h; cases h
    | some v =>
      rw [hpi] at h
      exact ih _ t c h (stepPixel_cleaned_mono hc tl tb p v)

lemma scanGo_cleaned_of_hit (raw : List Nat) (w : Nat) (tl tb : Int) :
    ∀ (L : List (Nat × Nat)) (s t : ScanState) (p : Nat × Nat) (v : Nat),
      p ∈ L → pyIndex raw (srcIndex w tl tb p) = some v →
      60 ≤ v → v ≤ 109 →
      scanGo raw w tl tb L s = some t → t.cleaned (foldRoom v) = true := by
  intro L
  induction L with
  | nil => intro s t p v hp; cases hp
  | cons p0 rest ih =>
    intro s t p v hp hpi h1 h2 h
    simp only [scanGo] at h
    rcases List.mem_cons.mp hp with rfl | hp
    · rw [hpi] at h
      exact scanGo_cleaned_mono raw w tl tb rest _ t _ h
        (stepPixel_cleaned_hit h1 h2 tl tb p s)
    · cases hpi0 : pyIndex raw (srcIndex w tl tb p0) with
      | none => rw [hpi0] at h; cases h
      | some v0 =>
        rw [hpi0] at h
        exact ih _ t p v hp hpi h1 h2 h

lemma positions_width_zero (th : Nat) : positions 0 th = [] := by
  simp [positions]

lemma positions_height_zero (tw : Nat) : positions tw 0 = [] := by
  simp [positions]

lemma stepPixel_keys_range {s : ScanState}
    (hs : ∀ R, s.rooms R ≠ none → 10 ≤ R ∧ R ≤ 59)
    (tl tb : Int) (p : Nat × Nat) (v : Nat) :
    ∀ R, (stepPixel tl tb p v s).rooms R ≠ none → 10 ≤ R ∧ R ≤ 59 := by
  intro R hR
  by_cases hc : classifyRoom v = some R
  · obtain ⟨-, h1, h2, hfold⟩ := classifyRoom_room_range hc
    exact hfold ▸ foldRoom_range h1 h2
  · rw [stepPixel_rooms_miss hc tl tb p s] at hR
    exact hs R hR

lemma scanGo_keys_range (raw : List Nat) (w : Nat) (tl tb : Int) :
    ∀ (L : List (Nat × Nat)) (s t : ScanState),
      scanGo raw w tl tb L s = some t →
      (∀ R, s.rooms R ≠ none → 10 ≤ R ∧ R ≤ 59) →
      ∀ R, t.rooms R ≠ none → 10 ≤ R ∧ R ≤ 59 := by
  intro L
  induction L with
  | nil =>
    intro s t h hs
    simp only [scanGo] at h
    cases h
    exact hs
  | cons p rest ih =>
    intro s t h hs
    simp only [scanGo] at h
    cases hpi : pyIndex raw (srcIndex w tl tb p) with
    | none => rw [hpi] at h; cases h
    | some v =>
      rw [hpi] at h
      exact ih _ t h (stepPixel_keys_range hs tl tb p v)

lemma stepPixel_cleaned_sub {s : ScanState}
    (hs : ∀ c, s.cleaned c = true → s.rooms c ≠ none)
    (tl tb : Int) (p : Nat × Nat) (v : Nat) :
    ∀ c, (stepPixel tl tb p v s).cleaned c = true →
      (stepPixel tl tb p v s).rooms c ≠ none := by
  intro c hc
  by_cases hcl : classifyRoom v = some c
  · rw [stepPixel_rooms_hit hcl tl tb p s]
    simp [expandO]
  · rw [stepPixel_rooms_miss hcl tl tb p s]
    apply hs
    unfold stepPixel at hc
    by_cases hm : v ∈ colorMapKeys
    · rwa [if_pos hm] at hc
    · rw [if_neg hm] at hc
      by_cases hr : 10 ≤ v ∧ v ≤ 109
      · rw [if_pos hr] at hc
        simp only [] at hc
        by_cases hsel : 60 ≤ v
        · rw [if_pos hsel] at hc
          by_cases he : c = foldRoom v
          · exact absurd (he ▸ classifyRoom_of_range hr.1 hr.2) hcl
          · rwa [if_neg he] at hc
        · rwa [if_neg hsel] at hc
      · rwa [if_neg hr] at hc

lemma scanGo_cleaned_sub (raw : List Nat) (w : Nat) (tl tb : Int) :
    ∀ (L : List (Nat × Nat)) (s t : ScanState),
      scanGo raw w tl tb L s = some t →
      (∀ c, s.cleaned c = true → s.rooms c ≠ none) →
      ∀ c, t.cleaned c = true → t.rooms c ≠ none := by
  intro L
  induction L with
  | nil =>
    intro s t h hs
    simp only [scanGo] at h
    cases h
    exact hs
  | cons p rest ih =>
    intro s t h hs
    simp only [scanGo] at h
    cases hpi : pyIndex raw (srcIndex w tl tb p) with
    | none => rw [hpi] at h; cases h
    | some v =>
      rw [hpi] at h
      exact ih _ t h (stepPixel_cleaned_sub hs tl tb p v)

/-- Case analysis on a successful run of `imageParserParse`: either a trimmed
extent is zero and the result is empty, or the classifier scan ran from the
initial state. -/
lemma imageParserParse_cases {raw : List Nat} {w h : Nat} {cfg : TrimCfg}
    {out : ParseOut} (hok : imageParserParse raw w h cfg = some out) :
    ((trimmedWidth w cfg = 0 ∨ trimmedHeight h cfg = 0) ∧ out = emptyParseOut) ∨
    (¬ (trimmedWidth w cfg = 0 ∨ trimmedHeight h cfg = 0) ∧
      ∃ s, scanGo raw w (trimPx cfg.left w) (trimPx cfg.bottom h)
          (scanPositions w h cfg) initState = some s ∧
        out = ⟨true, s.rooms, s.cleaned, s.unknown⟩) := by
  unfold imageParserParse at hok
  by_cases h1 : trimmedWidth w cfg = 0 ∨ trimmedHeight h cfg = 0
  · rw [if_pos h1] at hok
    exact Or.inl ⟨h1, (Option.some_injective _ hok).symm⟩
  · rw [if_neg h1] at hok
    by_cases h2 : trimmedWidth w cfg < 0 ∨ trimmedHeight h cfg < 0
    · rw [if_pos h2] at hok; cases hok
    · rw [if_neg h2] at hok
      cases hscan : scanGo raw w (trimPx cfg.left w) (trimPx cfg.bottom h)
          (scanPositions w h cfg) initState with
      | none => rw [hscan] at hok; cases hok
      | some s =>
        rw [hscan] at hok
        exact Or.inr ⟨h1, s, rfl, (Option.some_injective _ hok).symm⟩

/-- A zero trimmed extent makes the scan-position list empty. -/
lemma scanPositions_of_zero {w h : Nat} {cfg : TrimCfg}
    (hz : trimmedWidth w cfg = 0 ∨ trimmedHeight h cfg = 0) :
    scanPositions w h cfg = [] := by
  unfold scanPositions
  rcases hz with hz | hz
  · rw [hz]
    exact positions_width_zero _
  · rw [hz]
    exact positions_height_zero _

/-- The bounding box stored for room `R` is the min/max fold of the pixels
classified as `R`, in scan order. -/
lemma parse_rooms_eq_fold {raw : List Nat} {w h : Nat} {cfg : TrimCfg}
    {out : ParseOut} (hok : imageParserParse raw w h cfg = some out) (R : Nat) :
    out.rooms R = (roomPixels raw w h cfg R).foldl expandO none := by
  rcases imageParserParse_cases hok with ⟨hz, rfl⟩ | ⟨-, s, hscan, rfl⟩
  · unfold roomPixels
    rw [scanPositions_of_zero hz]
    simp [hitsOf, emptyParseOut]
  · exact scanGo_rooms raw w _ _ _ _ _ hscan R

/-- C3: after a full classifier pass, the box stored for room `R` exists iff
some pixel was classified as `R`; it contains every pixel classified as `R`;
each of its four extremes is attained by such a pixel (so it is the tightest
axis-aligned rectangle covering exactly the pixels classified as `R`, in
untrimmed coordinates); a room's box is created degenerate at the first pixel
of the room; and a single update step never shrinks an existing box. -/
theorem room_boxes_tightest (raw : List Nat) (w h : Nat) (cfg : TrimCfg)
    (out : ParseOut) (hok : imageParserParse raw w h cfg = some out) (R : Nat) :
    (out.rooms R = none ↔ roomPixels raw w h cfg R = []) ∧
    (∀ box, out.rooms R = some box →
      (∀ q ∈ roomPixels raw w h cfg R, inBox q box) ∧
      ((∃ q ∈ roomPixels raw w h cfg R, q.1 = box.minX) ∧
       (∃ q ∈ roomPixels raw w h cfg R, q.2 = box.minY) ∧
       (∃ q ∈ roomPixels raw w h cfg R, q.1 = box.maxX) ∧
       (∃ q ∈ roomPixels raw w h cfg R, q.2 = box.maxY)) ∧
      (∀ box2, (∀ q ∈ roomPixels raw w h cfg R, inBox q box2) → boxLe box box2)) ∧
    (∀ (p : Nat × Nat) (v : Nat) (s : ScanState),
      classifyRoom v = some R → s.rooms R = none →
      (stepPixel (trimPx cfg.left w) (trimPx cfg.bottom h) p v s).rooms R =
        some ⟨(p.1 : Int) + trimPx cfg.left w, (p.2 : Int) + trimPx cfg.bottom h,
              (p.1 : Int) + trimPx cfg.left w, (p.2 : Int) + trimPx cfg.bottom h⟩) ∧
    (∀ (p : Nat × Nat) (v : Nat) (s : ScanState) (b b2 : Box),
      s.rooms R = some b →
      (stepPixel (trimPx cfg.left w) (trimPx cfg.bottom h) p v s).rooms R = some b2 →
      boxLe b b2) := by
  have hfold := parse_rooms_eq_fold hok R
  refine ⟨?_, ?_, ?_, ?_⟩
  · rw [hfold]
    exact foldl_expandO_none_iff _
  · intro box hbox
    rw [hfold] at hbox
    refine ⟨fun q hq => foldl_expandO_contains _ _ _ hbox q hq, ?_, ?_⟩
    · obtain ⟨h1, h2, h3, h4⟩ := foldl_expandO_attained _ _ _ hbox
      refine ⟨?_, ?_, ?_, ?_⟩
      · rcases h1 with ⟨b, hb, -⟩ | h1
        · cases hb
        · exact h1
      · rcases h2 with ⟨b, hb, -⟩ | h2
        · cases hb
        · exact h2
      · rcases h3 with ⟨b, hb, -⟩ | h3
        · cases hb
        · exact h3
      · rcases h4 with ⟨b, hb, -⟩ | h4
        · cases hb
        · exact h4
    · intro box2 hcover
      obtain ⟨h1, h2, h3, h4⟩ := foldl_expandO_attained _ _ _ hbox
      refine ⟨?_, ?_, ?_, ?_⟩
      · rcases h1 with ⟨b, hb, -⟩ | ⟨q, hq, he⟩
        · cases hb
        · exact he ▸ (hcover q hq).1
      · rcases h3 with ⟨b, hb, -⟩ | ⟨q, hq, he⟩
        · cases hb
        · exact he ▸ (hcover q hq).2.1
      · rcases h2 with ⟨b, hb, -⟩ | ⟨q, hq, he⟩
        · cases hb
        · exact he ▸ (hcover q hq).2.2.1
      · rcases h4 with ⟨b, hb, -⟩ | ⟨q, hq, he⟩
        · cases hb
        · exact he ▸ (hcover q hq).2.2.2
  · intro p v s hc hnone
    rw [stepPixel_rooms_hit hc _ _ p s, hnone]
    rfl
  · intro p v s b b2 hb hb2
    by_cases hc : classifyRoom v = some R
    · rw [stepPixel_rooms_hit hc _ _ p s, hb] at hb2
      have : expandBox (some b) ((p.1 : Int) + trimPx cfg.left w)
          ((p.2 : Int) + trimPx cfg.bottom h) = b2 := Option.some_injective _ hb2
      exact this ▸ boxLe_expandBox b _ _
    · rw [stepPixel_rooms_miss hc _ _ p s, hb] at hb2
      have : b = b2 := Option.some_injective _ hb2
      exact this ▸ boxLe_refl b

/-- Concrete output of the classifier on the one-pixel buffer `[10]`. -/
def outEx10 : ParseOut :=
  ⟨true, fun r => if r = 10 then some ⟨0, 0, 0, 0⟩ else none,
   fun _ => false, fun _ => false⟩

/-- Witness for `room_boxes_tightest` on the concrete buffer `[10]`
(one pixel of room 10, no trimming). -/
theorem room_boxes_tightest_witness :
    imageParserParse [10] 1 1 ⟨0, 0, 0, 0⟩ = some outEx10 ∧
    (outEx10.rooms 10 = none ↔ roomPixels [10] 1 1 ⟨0, 0, 0, 0⟩ 10 = []) :=
  ⟨rfl, (room_boxes_tightest [10] 1 1 ⟨0, 0, 0, 0⟩ outEx10 rfl 10).1⟩

/-- C4: every pixel value `v` in `[60, 109]` encountered by the classifier is
recorded under the folded room number `v - 50` (`= v - 60 + 10`): that number
is marked cleaned, it appears as a key of the bounding-box dictionary, every
key of that dictionary lies in `[10, 59]`, every cleaned number is a key, and
`get_current_vacuum_room` applies the same folding rule. -/
theorem selected_pixels_folded (raw : List Nat) (w h : Nat) (cfg : TrimCfg)
    (out : ParseOut) (hok : imageParserParse raw w h cfg = some out) :
    (∀ p ∈ scanPositions w h cfg, ∀ v : Nat,
      pyIndex raw (srcIndex w (trimPx cfg.left w) (trimPx cfg.bottom h) p) = some v →
      60 ≤ v → v ≤ 109 →
      foldRoom v = v - 50 ∧ out.cleaned (v - 50) = true ∧ out.rooms (v - 50) ≠ none) ∧
    (∀ R, out.rooms R ≠ none → 10 ≤ R ∧ R ≤ 59) ∧
    (∀ c, out.cleaned c = true → out.rooms c ≠ none) ∧
    (∀ (raw2 : List Nat) (px py : Int) (iw : Nat) (v : Nat),
      pyIndex raw2 (py * (iw : Int) + px) = some v → 60 ≤ v → v ≤ 109 →
      getCurrentVacuumRoom raw2 px py iw = some (some (v - 50))) := by
  refine ⟨?_, ?_, ?_, ?_⟩
  · intro p hp v hpi h60 h109
    have hfoldv : foldRoom v = v - 50 := foldRoom_selected h60
    refine ⟨hfoldv, ?_, ?_⟩
    · rcases imageParserParse_cases hok with ⟨hz, rfl⟩ | ⟨-, s, hscan, rfl⟩
      · rw [scanPositions_of_zero hz] at hp
        cases hp
      · exact hfoldv ▸ scanGo_cleaned_of_hit raw w _ _ _ _ _ p v hp hpi h60 h109 hscan
    · have hclass : classifyRoom v = some (v - 50) :=
        hfoldv ▸ classifyRoom_of_range (by omega) h109
      have hmem : ((p.1 : Int) + trimPx cfg.left w, (p.2 : Int) + trimPx cfg.bottom h) ∈
          roomPixels raw w h cfg (v - 50) := by
        apply List.mem_filterMap.mpr
        refine ⟨p, hp, ?_⟩
        rw [hpi]
        show (if classifyRoom v = some (v - 50) then
            some ((p.1 : Int) + trimPx cfg.left w, (p.2 : Int) + trimPx cfg.bottom h)
          else none) =
          some ((p.1 : Int) + trimPx cfg.left w, (p.2 : Int) + trimPx cfg.bottom h)
        rw [if_pos hclass]
      intro hnone
      rw [parse_rooms_eq_fold hok (v - 50)] at hnone
      rw [(foldl_expandO_none_iff _).mp hnone] at hmem
      cases hmem
  · intro R hR
    rcases imageParserParse_cases hok with ⟨-, rfl⟩ | ⟨-, s, hscan, rfl⟩
    · exact absurd rfl hR
    · exact scanGo_keys_range raw w _ _ _ _ _ hscan
        (fun R h => absurd rfl h) R hR
  · intro c hc
    rcases imageParserParse_cases hok with ⟨-, rfl⟩ | ⟨-, s, hscan, rfl⟩
    · cases hc
    · exact scanGo_cleaned_sub raw w _ _ _ _ _ hscan
        (fun c h => by cases h) c hc
  · intro raw2 px py iw v hpi h60 h109
    unfold getCurrentVacuumRoom
    rw [hpi]
    have hn : ¬ (10 ≤ v ∧ v ≤ 59) := by omega
    show (if 10 ≤ v ∧ v ≤ 59 then some (some v)
      else if 60 ≤ v ∧ v ≤ 109 then some (some (v - 60 + 10)) else some none) =
      some (some (v - 50))
    rw [if_neg hn, if_pos ⟨h60, h109⟩]
    congr 2
    omega

/-- Concrete output of the classifier on the one-pixel buffer `[65]`. -/
def outEx65 : ParseOut :=
  ⟨true, fun r => if r = 15 then some ⟨0, 0, 0, 0⟩ else none,
   fun c => if c = 15 then true else false, fun _ => false⟩

/-- Witness for `selected_pixels_folded` on the concrete buffer `[65]`
(one pixel of selected room value 65, folded to room 15). -/
theorem selected_pixels_folded_witness :
    imageParserParse [65] 1 1 ⟨0, 0, 0, 0⟩ = some outEx65 ∧
    (foldRoom 65 = 65 - 50 ∧ outEx65.cleaned (65 - 50) = true ∧
      outEx65.rooms (65 - 50) ≠ none) :=
  ⟨rfl, (selected_pixels_folded [65] 1 1 ⟨0, 0, 0, 0⟩ outEx65 rfl).1
    (0, 0) (by decide) 65 rfl (by decide) (by decide)⟩

/-! ## C6: trim-to-zero behaviour -/

/-- C6 counterexample: with width 3 and a 50% trim on both left and right the
trim percentages sum to 100, yet `int(50 * 3 / 100) = 1` on each side leaves
a trimmed width of `3 - 1 - 1 = 1`, so the classifier produces an image
rather than the no-image result the claim requires. -/
theorem trim_sum_100_produces_image :
    (50 : ℚ) + 50 = 100 ∧
    (imageParserParse [0, 0, 0] 3 1 ⟨50, 50, 0, 0⟩).map ParseOut.hasImage = some true :=
  ⟨by norm_num, by decide⟩

/-- C6 (amended): whenever the computed trimmed width or trimmed height is
zero — as happens for percentages summing to 100 whose per-side products
with the dimension are exact multiples of 100 — the classifier returns no
image together with an empty room dictionary and an empty cleaned set, and
raises no exception. -/
theorem trim_zero_extent_empty (raw : List Nat) (w h : Nat) (cfg : TrimCfg)
    (hz : trimmedWidth w cfg = 0 ∨ trimmedHeight h cfg = 0) :
    imageParserParse raw w h cfg = some emptyParseOut := by
  unfold imageParserParse
  rw [if_pos hz]

/-- Witness for `trim_zero_extent_empty`: width 2 with 50% left and right trim
trims one pixel on each side, leaving width zero. -/
theorem trim_zero_extent_empty_witness :
    imageParserParse [] 2 2 ⟨50, 50, 0, 0⟩ = some emptyParseOut :=
  trim_zero_extent_empty [] 2 2 ⟨50, 50, 0, 0⟩ (Or.inl (by decide))

/-! ## C10: pixel-alphabet remap
(`XiaomiMapDataParser._normalize_json_map_pixels`) -/

/-- One pixel of `_normalize_json_map_pixels` (lines 182-198): `0` stays `0`,
`1` and `2` become `127` (`MAP_INSIDE`), `3..63` become
`MAP_ROOM_MIN + (v - 3)`, everything else becomes `128` (`MAP_WALL`). -/
def normalizeJsonMapPixel (v : Nat) : Nat :=
  if v = 0 then 0
  else if v = 1 ∨ v = 2 then 127
  else if 3 ≤ v ∧ v ≤ 63 then 10 + (v - 3)
  else 128

/-- The whole-buffer remap. -/
def normalizeJsonMapPixels (raw : List Nat) : List Nat :=
  raw.map normalizeJsonMapPixel

/-- C10: a payload pixel `v` with `60 ≤ v ≤ 63` is remapped to
`10 + (v - 3) = v + 7`, which lands in the classifier's selected/cleaned band
`[60, 109]`; the classifier therefore records it under folded room number
`v - 43` (i.e. 17 through 20) and marks that room as currently cleaned. -/
theorem grid_ids_60_63_collide_with_cleaned (v : Nat) (h60 : 60 ≤ v) (h63 : v ≤ 63) :
    normalizeJsonMapPixel v = v + 7 ∧
    (60 ≤ v + 7 ∧ v + 7 ≤ 109) ∧
    classifyRoom (v + 7) = some (v - 43) ∧
    (17 ≤ v - 43 ∧ v - 43 ≤ 20) ∧
    (∀ (tl tb : Int) (p : Nat × Nat) (s : ScanState),
      (stepPixel tl tb p (v + 7) s).cleaned (v - 43) = true ∧
      (stepPixel tl tb p (v + 7) s).rooms (v - 43) ≠ none) := by
  have hfold : foldRoom (v + 7) = v - 43 := by
    rw [foldRoom_selected (by omega)]
    omega
  have hclass : classifyRoom (v + 7) = some (v - 43) :=
    hfold ▸ classifyRoom_of_range (by omega) (by omega)
  refine ⟨?_, ⟨by omega, by omega⟩, hclass, ⟨by omega, by omega⟩, ?_⟩
  · unfold normalizeJsonMapPixel
    rw [if_neg (by omega : ¬ v = 0), if_neg (by omega : ¬ (v = 1 ∨ v = 2)),
      if_pos ⟨by omega, h63⟩]
    omega
  · intro tl tb p s
    constructor
    · exact hfold ▸ stepPixel_cleaned_hit (by omega) (by omega) tl tb p s
    · rw [stepPixel_rooms_hit hclass tl tb p s]
      simp [expandO]

/-- Witness for `grid_ids_60_63_collide_with_cleaned` at payload pixel 60. -/
theorem grid_ids_collide_witness :
    normalizeJsonMapPixel 60 = 67 ∧
    (stepPixel 0 0 (0, 0) 67 initState).cleaned 17 = true := by
  have h := grid_ids_60_63_collide_with_cleaned 60 (by decide) (by decide)
  exact ⟨h.1, (h.2.2.2.2 0 0 (0, 0) initState).1⟩

/-! ## C2: room-id reconciliation
(`XiaomiMapDataParser._parse_json_payload`, lines 311-369) -/

/-- `int(room_number) - MAP_ROOM_MIN + 3` (line 161). -/
def roomNumberToGridId (rn : Nat) : Int := (rn : Int) - 10 + 3

/-- `room_id = grid_to_room.get(grid_id, grid_id)` (line 314): the key under
which the room of pixel room number `rn` is stored in `rooms_out`. -/
def roomIdFor (gridToRoom : Int → Option Int) (rn : Nat) : Int :=
  (gridToRoom (roomNumberToGridId rn)).getD (roomNumberToGridId rn)

/-- Try 3 of the name-attachment resolution (lines 359-362): treat the id as
a room id and look up its grid id. -/
def resolveViaRoomToGrid (roomKeys : List Int) (roomToGrid : Int → Option Int)
    (rid : Int) : Option Int :=
  match roomToGrid rid with
  | some g => if g ∈ roomKeys then some g else none
  | none => none

/-- The three-way resolution of a `room_attrs` id against the assembled room
keys (lines 348-362): direct match, then grid-to-room, then room-to-grid,
first match wins. -/
def resolveTarget (roomKeys : List Int) (gridToRoom roomToGrid : Int → Option Int)
    (rid : Int) : Option Int :=
  if rid ∈ roomKeys then some rid
  else
    match gridToRoom rid with
    | some m => if m ∈ roomKeys then some m else resolveViaRoomToGrid roomKeys roomToGrid rid
    | none => resolveViaRoomToGrid roomKeys roomToGrid rid

/-- The scenario tables `grid_to_room = {3: 100}` and its reverse. -/
def g2rEx : Int → Option Int := fun g => if g = 3 then some 100 else none

def r2gEx : Int → Option Int := fun r => if r = 100 then some 3 else none

/-- C2: name attachment tries the id as a room id, then maps it grid-to-room,
then room-to-grid, in that order, first match wins; and in the concrete
scenario `grid_to_room = {3: 100}` with classifier pixel room number 10
(grid id 3), a `room_attrs` entry carrying id 100 attaches to the room keyed
100, which is the room whose grid id is 3. -/
theorem room_name_resolution :
    (∀ (keys : List Int) (g2r r2g : Int → Option Int) (rid : Int),
      (rid ∈ keys → resolveTarget keys g2r r2g rid = some rid) ∧
      (rid ∉ keys → ∀ m, g2r rid = some m → m ∈ keys →
        resolveTarget keys g2r r2g rid = some m) ∧
      (rid ∉ keys → (∀ m, g2r rid = some m → m ∉ keys) →
        ∀ g, r2g rid = some g → g ∈ keys →
        resolveTarget keys g2r r2g rid = some g) ∧
      (rid ∉ keys → (∀ m, g2r rid = some m → m ∉ keys) →
        (∀ g, r2g rid = some g → g ∉ keys) →
        resolveTarget keys g2r r2g rid = none)) ∧
    (roomNumberToGridId 10 = 3 ∧
     roomIdFor g2rEx 10 = 100 ∧
     resolveTarget [roomIdFor g2rEx 10] g2rEx r2gEx 100 = some (roomIdFor g2rEx 10)) := by
  constructor
  · intro keys g2r r2g rid
    refine ⟨fun h => ?_, fun hnot m hm hmk => ?_, fun hnot hmiss g hg hgk => ?_,
      fun hnot hmiss hgmiss => ?_⟩
    · simp [resolveTarget, h]
    · simp [resolveTarget, hnot, hm, hmk]
    · cases hg2r : g2r rid with
      | none => simp [resolveTarget, hnot, hg2r, resolveViaRoomToGrid, hg, hgk]
      | some m =>
        have hm := hmiss m hg2r
        simp [resolveTarget, hnot, hg2r, hm, resolveViaRoomToGrid, hg, hgk]
    · cases hg2r : g2r rid with
      | none =>
        cases hr2g : r2g rid with
        | none => simp [resolveTarget, hnot, hg2r, resolveViaRoomToGrid, hr2g]
        | some g =>
          have hg := hgmiss g hr2g
          simp [resolveTarget, hnot, hg2r, resolveViaRoomToGrid, hr2g, hg]
      | some m =>
        have hm := hmiss m hg2r
        cases hr2g : r2g rid with
        | none => simp [resolveTarget, hnot, hg2r, hm, resolveViaRoomToGrid, hr2g]
        | some g =>
          have hg := hgmiss g hr2g
          simp [resolveTarget, hnot, hg2r, hm, resolveViaRoomToGrid, hr2g, hg]
  · refine ⟨by decide, by decide, by decide⟩

/-- Witness for `room_name_resolution`: a direct match resolves to itself. -/
theorem room_name_resolution_witness :
    resolveTarget [(5 : Int)] (fun _ => none) (fun _ => none) 5 = some 5 :=
  (room_name_resolution.1 [(5 : Int)] (fun _ => none) (fun _ => none) 5).1 (by decide)

/-! ## C9: input typing of `XiaomiMapDataParser.parse` (lines 79-113) -/

/-- The possible shapes of the `raw` argument of `parse`: Python `None`, a
string, a dict (already-parsed payload of type `P`), or any other object
(int, list, bytes, ...). -/
inductive RawInput (P : Type) where
  | pyNone : RawInput P
  | str : String → RawInput P
  | dict : P → RawInput P
  | other : RawInput P

/-- The fatal outcomes of `parse`, distinguished by exception class and
message: `ValueError("Map data cannot be None")` (line 99),
`ValueError("Map data is a string but not valid JSON")` (line 106, the
`MalformedPayload` condition), `TypeError("Unsupported map data type")`
(line 113, the `UnsupportedInputType` condition), and any exception raised
inside `_parse_json_payload` (e.g. `RuntimeError` for corrupt map data). -/
inductive ParseErr where
  | noneValue : ParseErr
  | malformedJson : ParseErr
  | unsupportedType : ParseErr
  | payloadError : ParseErr
deriving DecidableEq

/-- `XiaomiMapDataParser.parse`, parameterized by the JSON parser
(`json.loads`, failing with `none`) and by `_parse_json_payload` (which may
itself raise, modelled by `Except Unit`). -/
def parseRaw {P M : Type} (jsonLoads : String → Option P)
    (parsePayload : P → Except Unit M) : RawInput P → Except ParseErr M
  | .pyNone => .error .noneValue
  | .str s =>
    match jsonLoads s with
    | none => .error .malformedJson
    | some p => (parsePayload p).mapError fun _ => .payloadError
  | .dict d => (parsePayload d).mapError fun _ => .payloadError
  | .other => .error .unsupportedType

/-- C9 counterexample: `parse(None)` raises
`ValueError("Map data cannot be None")`, a condition distinct from the
`TypeError` that realises `UnsupportedInputType`, contradicting the claim
that every non-string, non-dict input (including `None`) raises
`UnsupportedInputType`. -/
theorem parse_none_not_unsupported :
    parseRaw (P := Unit) (M := Unit) (fun _ => none) (fun _ => .ok ()) .pyNone =
      .error .noneValue ∧
    ParseErr.noneValue ≠ ParseErr.unsupportedType :=
  ⟨rfl, by decide⟩

/-- C9 (amended): every input that is neither a string nor a dict and is not
`None` raises `UnsupportedInputType` (`TypeError`); `None` raises a distinct
fatal `ValueError`; `MalformedPayload` is raised exactly for the string
inputs that fail JSON parsing; and a JSON string parses to the same result
as its already-parsed dict equivalent. -/
theorem parse_input_typing {P M : Type} (jsonLoads : String → Option P)
    (parsePayload : P → Except Unit M) :
    (parseRaw jsonLoads parsePayload .pyNone = .error .noneValue) ∧
    (parseRaw jsonLoads parsePayload .other = .error .unsupportedType) ∧
    (∀ s, jsonLoads s = none →
      parseRaw jsonLoads parsePayload (.str s) = .error .malformedJson) ∧
    (∀ s p, jsonLoads s = some p →
      parseRaw jsonLoads parsePayload (.str s) = parseRaw jsonLoads parsePayload (.dict p)) ∧
    (∀ x, parseRaw jsonLoads parsePayload x = .error .malformedJson →
      ∃ s, x = .str s ∧ jsonLoads s = none) := by
  refine ⟨rfl, rfl, fun s hs => ?_, fun s p hp => ?_, fun x hx => ?_⟩
  · simp [parseRaw, hs]
  · simp [parseRaw, hp]
  · cases x with
    | pyNone => cases hx
    | other => cases hx
    | dict d =>
      exfalso
      simp only [parseRaw] at hx
      cases hd : parsePayload d with
      | ok m => rw [hd] at hx; cases hx
      | error e => rw [hd] at hx; cases hx
    | str s =>
      refine ⟨s, rfl, ?_⟩
      cases hs : jsonLoads s with
      | none => rfl
      | some p =>
        exfalso
        simp only [parseRaw, hs] at hx
        cases hd : parsePayload p with
        | ok m => rw [hd] at hx; cases hx
        | error e => rw [hd] at hx; cases hx

/-- A sample well-formed input string for the witness. -/
def okText : String := "ok"

/-- A sample malformed input string for the witness. -/
def badText : String := "bad"

/-- Witness for `parse_input_typing` with a concrete one-key JSON parser. -/
theorem parse_input_typing_witness :
    parseRaw (P := Unit) (M := Unit)
      (fun s => if s = okText then some () else none) (fun _ => .ok ())
      (.str badText) = .error .malformedJson :=
  (parse_input_typing (P := Unit) (M := Unit)
      (fun s => if s = okText then some () else none) (fun _ => .ok ())).2.2.1
    badText (by decide)

/-! ## C1: the decryption pipeline (`aes_decryptor.py`)

The AES block cipher, MD5 and zlib decompression are abstracted as function
parameters (`aesEncCBC`, `aesDecCBC`, `md5f`, `inflateF`): the claim is
settled purely by the glue code around them, which is modelled exactly.
PyCryptodome's key-length checks are likewise abstracted away (they could
only add further failure cases). -/

/-- Lower-case hex digit character for a value below 16. -/
def hexDigitLowerChar (n : Nat) : Char :=
  Char.ofNat (if n < 10 then 48 + n else 87 + n)

/-- Upper-case hex digit character for a value below 16. -/
def hexDigitUpperChar (n : Nat) : Char :=
  Char.ofNat (if n < 10 then 48 + n else 55 + n)

/-- Python `bytes.hex().upper()`. -/
def hexUpper (bs : List Nat) : List Char :=
  bs.flatMap fun b => [hexDigitUpperChar (b / 16 % 16), hexDigitUpperChar (b % 16)]

/-- Python `hashlib`-style `.hexdigest()` (lower-case hex). -/
def hexLower (bs : List Nat) : List Char :=
  bs.flatMap fun b => [hexDigitLowerChar (b / 16 % 16), hexDigitLowerChar (b % 16)]

/-- PKCS7 padding to the AES block size 16 (`Crypto.Util.Padding.pad`). -/
def pkcs7pad (data : List Nat) : List Nat :=
  data ++ List.replicate (16 - data.length % 16) (16 - data.length % 16)

/-- PKCS7 unpadding (`Crypto.Util.Padding.unpad`); invalid padding raises,
modelled as `none`. -/
def pkcs7unpad (data : List Nat) : Option (List Nat) :=
  match data.getLast? with
  | none => none
  | some p =>
    if p = 0 ∨ 16 < p ∨ data.length < p ∨ data.length % 16 ≠ 0 then none
    else if (data.drop (data.length - p)).all fun b => decide (b = p) then
      some (data.take (data.length - p))
    else none

/-- Value of a hexadecimal digit character, if any. -/
def hexVal (c : Char) : Option Nat :=
  if 48 ≤ c.toNat ∧ c.toNat ≤ 57 then some (c.toNat - 48)
  else if 97 ≤ c.toNat ∧ c.toNat ≤ 102 then some (c.toNat - 87)
  else if 65 ≤ c.toNat ∧ c.toNat ≤ 70 then some (c.toNat - 55)
  else none

/-- ASCII whitespace, which `bytes.fromhex` skips between byte pairs. -/
def isPyWs (c : Char) : Bool :=
  c.toNat = 32 ∨ c.toNat = 9 ∨ c.toNat = 10 ∨ c.toNat = 13 ∨
    c.toNat = 11 ∨ c.toNat = 12

/-- `bytes.fromhex`: whitespace may separate byte pairs, each pair is two
consecutive hex digits; anything else (including an odd digit count) raises
`ValueError`, modelled as `none`. -/
def bytesFromHexAux : List Char → Option (List Nat)
  | [] => some []
  | [c] => if isPyWs c then some [] else none
  | c :: c2 :: rest =>
    if isPyWs c then bytesFromHexAux (c2 :: rest)
    else
      match hexVal c with
      | none => none
      | some hi =>
        match hexVal c2 with
        | none => none
        | some lo => (bytesFromHexAux rest).map fun l => (16 * hi + lo) :: l

def bytesFromHex (s : List Char) : Option (List Nat) := bytesFromHexAux s

/-- Escape of one byte inside Python's `repr` of a bytes object, where `q` is
the code of the chosen quote character. -/
def pyByteEscape (q : Nat) (b : Nat) : List Char :=
  if b = 92 then [Char.ofNat 92, Char.ofNat 92]
  else if b = q then [Char.ofNat 92, Char.ofNat q]
  else if b = 9 then [Char.ofNat 92, 't']
  else if b = 10 then [Char.ofNat 92, 'n']
  else if b = 13 then [Char.ofNat 92, 'r']
  else if 32 ≤ b ∧ b < 127 then [Char.ofNat b]
  else [Char.ofNat 92, 'x', hexDigitLowerChar (b / 16 % 16), hexDigitLowerChar (b % 16)]

/-- Python `str(...)` of a bytes object: `b` followed by a quoted, escaped
byte listing.  Single quotes are used unless the data contains a single
quote and no double quote. -/
def pyBytesRepr (bs : List Nat) : List Char :=
  'b' :: Char.ofNat (if 39 ∈ bs ∧ ¬ 34 ∈ bs then 34 else 39) ::
    (bs.flatMap (pyByteEscape (if 39 ∈ bs ∧ ¬ 34 ∈ bs then 34 else 39)) ++
      [Char.ofNat (if 39 ∈ bs ∧ ¬ 34 ∈ bs then 34 else 39)])

/-- The hardcoded IV `b"ABCDEF1234123412"`. -/
def ivBytes : List Nat := [65, 66, 67, 68, 69, 70, 49, 50, 51, 52, 49, 50, 51, 52, 49, 50]

/-- `aes_encrypt` (lines 17-23): CBC-encrypt the PKCS7-padded data and return
the upper-case hex of the ciphertext.  `aesEncCBC key iv data` stands for
PyCryptodome's `AES.new(key, MODE_CBC, iv).encrypt(data)`. -/
def aes_encrypt (aesEncCBC : List Nat → List Nat → List Nat → List Nat)
    (data key iv : List Nat) : List Char :=
  hexUpper (aesEncCBC key iv (pkcs7pad data))

/-- `aes_decrypt` (lines 36-46): CBC-decrypt then PKCS7-unpad; any cipher or
padding error becomes a `RuntimeError`, modelled as `none`.  A data length
that is not a block multiple makes `cipher.decrypt` itself raise. -/
def aes_decrypt (aesDecCBC : List Nat → List Nat → List Nat → List Nat)
    (data key iv : List Nat) : Option (List Nat) :=
  if data.length % 16 = 0 then pkcs7unpad (aesDecCBC key iv data) else none

/-- `decrypt` (lines 68-89).  Step by step:
`encKey = aes_encrypt(modelKey + did, modelKey, iv)` (hex text),
`encKey2 = bytes.fromhex(encKey)`,
`md5Key = md5(encKey2).hexdigest()`, `decryptKey = bytes.fromhex(md5Key)`,
`encryptedBytes = bytes.fromhex(str(encryptedMapContent))`,
then `aes_decrypt` and `inflate` (zlib decompress + UTF-8 decode, abstracted
as `inflateF`).  Any step raising is `none`. -/
def decrypt (aesEncCBC aesDecCBC : List Nat → List Nat → List Nat → List Nat)
    (md5f : List Nat → List Nat) (inflateF : List Nat → Option (List Char))
    (encryptedMapContent modelKey did : List Nat) : Option (List Char) :=
  (bytesFromHex (aes_encrypt aesEncCBC (modelKey ++ did) modelKey ivBytes)).bind
    fun encKey2 =>
      (bytesFromHex (hexLower (md5f encKey2))).bind fun decryptKey =>
        (bytesFromHex (pyBytesRepr encryptedMapContent)).bind fun encryptedBytes =>
          (aes_decrypt aesDecCBC encryptedBytes decryptKey ivBytes).bind
            fun decryptedBytes => inflateF decryptedBytes

lemma isPyWs_b : isPyWs 'b' = false := rfl

lemma hexVal_b : hexVal 'b' = some 11 := rfl

lemma hexVal_quote (hq : q = 34 ∨ q = 39) : hexVal (Char.ofNat q) = none := by
  rcases hq with rfl | rfl <;> rfl

/-- `str(...)` of a bytes object always starts `b'` or `b"`; `bytes.fromhex`
reads `b` as a hex digit and then fails on the quote character, whatever the
contents. -/
lemma bytesFromHex_pyBytesRepr (bs : List Nat) :
    bytesFromHex (pyBytesRepr bs) = none := by
  unfold bytesFromHex pyBytesRepr
  simp only [bytesFromHexAux, isPyWs_b, Bool.false_eq_true, if_false, hexVal_b]
  rw [hexVal_quote (by split <;> simp)]

/-- C1 (code evaluation): `decrypt(payload, modelKey, did)` fails for every
bytes payload, model key and device id, whatever the cipher, hash and
decompression primitives do: `bytes.fromhex(str(encryptedMapContent))`
applies `str()` to a bytes object, producing `b'...'`, which is never valid
hex — the quote character after `b` aborts `fromhex` with `ValueError`.  The
claimed round trip therefore never returns the plaintext. -/
theorem decrypt_always_raises
    (aesEncCBC aesDecCBC : List Nat → List Nat → List Nat → List Nat)
    (md5f : List Nat → List Nat) (inflateF : List Nat → Option (List Char))
    (payload modelKey did : List Nat) :
    decrypt aesEncCBC aesDecCBC md5f inflateF payload modelKey did = none := by
  unfold decrypt
  cases h1 : bytesFromHex (aes_encrypt aesEncCBC (modelKey ++ did) modelKey ivBytes) with
  | none => rfl
  | some encKey2 =>
    cases h2 : bytesFromHex (hexLower (md5f encKey2)) with
    | none => simp [h2]
    | some decryptKey => simp [h2, bytesFromHex_pyBytesRepr]

end XiaomiMap
